import Mathlib

/-!
Verification development for `scripts/add_headers.py` of the texelation
repository: a shallow embedding of its data model and functions
(`choose_info`, `humanise`, `build_header`, `insert_header`, `main`) as
executable Lean definitions, followed by theorems settling the spec claims.

Strings are modelled with Lean `String`; the Python operations used by the
script (`splitlines`, `startswith`, `endswith`, `strip`, slicing, `in`,
`str.format`, `'\n'.join`) are embedded as structurally recursive functions
over `String.toList` so that every definition evaluates inside the kernel.
`read_text` uses universal-newline mode, so modelling line breaks as `'\n'`
only is faithful to the content the script actually sees.
-/

/-- Python `s.startswith(pre)` (on the full string). -/
def pyStartswith (s pre : String) : Bool :=
  pre.toList.isPrefixOf s.toList

/-- Python `s.endswith(suf)`. -/
def pyEndswith (s suf : String) : Bool :=
  suf.toList.reverse.isPrefixOf s.toList.reverse

/-- Substring search: does `pat` occur as a contiguous run inside `s`? -/
def infixAt (pat : List Char) : List Char → Bool
  | [] => pat.isEmpty
  | c :: rest => pat.isPrefixOf (c :: rest) || infixAt pat rest

/-- Python `pat in s` (substring containment), used for the `"/vendor/"` filter. -/
def pyContains (s pat : String) : Bool :=
  infixAt pat.toList s.toList

/-- Python `s.strip() == ""`: the line consists only of whitespace. -/
def isBlankLine (s : String) : Bool :=
  s.toList.all Char.isWhitespace

/-- Python `s[:-n]` for `n > 0`: drop the last `n` characters (empty when `len(s) <= n`). -/
def dropRightStr (s : String) (n : Nat) : String :=
  ⟨s.toList.take (s.toList.length - n)⟩

/-- Helper for `splitlines`: `cur` holds the characters of the current line, reversed. -/
def splitlinesAux (cur : List Char) : List Char → List String
  | [] => [⟨cur.reverse⟩]
  | c :: rest =>
      if c = '\n' then
        ⟨cur.reverse⟩ :: (if rest = [] then [] else splitlinesAux [] rest)
      else
        splitlinesAux (c :: cur) rest

/-- Python `text.splitlines()` restricted to `'\n'` line breaks: line terminators are
dropped and a trailing newline produces no trailing empty line; `"".splitlines() == []`. -/
def splitlines (s : String) : List String :=
  match s.toList with
  | [] => []
  | c :: rest => splitlinesAux [] (c :: rest)

/-- Python `"\n".join(lines)`. -/
def joinLines : List String → String
  | [] => ""
  | [l] => l
  | l :: l2 :: rest => l ++ "\n" ++ joinLines (l2 :: rest)

/-- Split a character list into maximal runs of non-whitespace (Python `str.split()`
with no argument); `cur` holds the current word, reversed. -/
def splitWordsAux (cur : List Char) : List Char → List String
  | [] => if cur = [] then [] else [⟨cur.reverse⟩]
  | c :: rest =>
      if c.isWhitespace then
        (if cur = [] then [] else [(⟨cur.reverse⟩ : String)]) ++ splitWordsAux [] rest
      else
        splitWordsAux (c :: cur) rest

/-- Python `s.split()` (no separator argument): whitespace-separated words, empties dropped. -/
def splitWords (s : String) : List String :=
  splitWordsAux [] s.toList

/-- Python `" ".join(words)`. -/
def joinSpaces : List String → String
  | [] => ""
  | [w] => w
  | w :: w2 :: rest => w ++ " " ++ joinSpaces (w2 :: rest)

/-- One occurrence-by-occurrence replacement step for `str.format`/`str.replace`
with a non-empty pattern; `fuel` bounds the recursion by the input length. -/
def replaceListAux (pat repl : List Char) : Nat → List Char → List Char
  | _, [] => []
  | 0, s => s
  | fuel + 1, c :: rest =>
      if pat.isPrefixOf (c :: rest) then
        repl ++ replaceListAux pat repl fuel ((c :: rest).drop pat.length)
      else
        c :: replaceListAux pat repl fuel rest

/-- Python `s.replace(pat, repl)` for a non-empty `pat`. -/
def pyReplace (s pat repl : String) : String :=
  ⟨replaceListAux pat.toList repl.toList s.toList.length s.toList⟩

/-- Python `template.format(feature=..., component=...)`: the templates in the rule
table use only the `{feature}` placeholder (none mentions `{component}`), so
formatting is placeholder substitution. -/
def formatTemplate (template feature component : String) : String :=
  pyReplace (pyReplace template "{feature}" feature) "{component}" component

/-- A `DIR_INFO` entry (the spec's DirectoryRule metadata): `component`,
`usage_template`, `notes`. -/
structure Info where
  component : String
  usage_template : String
  notes : String
deriving DecidableEq, Repr

/-- The `DIR_INFO` table of `add_headers.py`, in dict insertion order (Python dicts
iterate in insertion order, which `choose_info` relies on). -/
def DIR_INFO : List (String × Info) :=
  [ ("client/cmd/texel-client",
     { component := "remote client binary",
       usage_template := "Invoked by end users to render the server-hosted desktop locally; other tooling wraps this runtime via internal/runtime/client.Run.",
       notes := "Depends on the client runtime packages; keep it thin so alternate front-ends can reuse the same code." }),
    ("client/cmd/texel-headless",
     { component := "headless client harness",
       usage_template := "Used in CI and automated tests to validate protocol flows without opening a tcell screen.",
       notes := "Provides a minimal client for scripted scenarios." }),
    ("client",
     { component := "client runtime support library",
       usage_template := "Imported by the remote renderer to manage {feature} during live sessions.",
       notes := "Shared across multiple client binaries and tests." }),
    ("apps/clock",
     { component := "clock status widget",
       usage_template := "Loaded into the desktop chrome to display time information.",
       notes := "Uses shared texel primitives for drawing." }),
    ("apps/statusbar",
     { component := "status bar application",
       usage_template := "Added to desktops to render workspace and mode metadata.",
       notes := "Works in both local and remote deployments." }),
    ("apps/texelterm/parser",
     { component := "terminal parser module",
       usage_template := "Consumed by the terminal app when decoding VT sequences.",
       notes := "Keeps parsing concerns isolated from rendering." }),
    ("apps/texelterm",
     { component := "terminal application",
       usage_template := "Spawned by desktop factories to provide shell access.",
       notes := "Wraps PTY management and integrates with the parser package." }),
    ("apps/welcome",
     { component := "welcome application",
       usage_template := "Presented on new sessions to guide users through the interface.",
       notes := "Displays static content; simple example app." }),
    ("internal/effects",
     { component := "client effect subsystem",
       usage_template := "Used by the client runtime to orchestrate {feature} visuals before rendering.",
       notes := "Centralises every pane and workspace overlay so they can be configured via themes." }),
    ("internal/runtime/client",
     { component := "remote client runtime",
       usage_template := "Embedded by client binaries to handle {feature} as part of the render/event loop.",
       notes := "Owns session management, rendering, and protocol interaction for remote front-ends." }),
    ("internal/runtime/server/testutil",
     { component := "server runtime test utilities",
       usage_template := "Imported by server tests when they need {feature} helpers.",
       notes := "Not shipped with production binaries; only used in test code." }),
    ("internal/runtime/server",
     { component := "server runtime",
       usage_template := "Used by texel-server to coordinate {feature} when hosting apps and sessions.",
       notes := "This package bridges the legacy desktop code with the client/server protocol implementation." }),
    ("protocol",
     { component := "protocol definitions",
       usage_template := "Shared by clients and servers to encode {feature} messages over the wire.",
       notes := "Keep changes backward-compatible; any additions require coordinated version bumps." }),
    ("texel/theme",
     { component := "theme subsystem",
       usage_template := "Accessed by both server and client when reading {feature} from theme configurations.",
       notes := "Ensures user theme files always contain required defaults." }),
    ("texel",
     { component := "core desktop engine",
       usage_template := "Used throughout the project to implement {feature} inside the desktop and panes.",
       notes := "Legacy desktop logic migrated from the monolithic application." }),
    ("cmd/texel-server",
     { component := "server CLI harness",
       usage_template := "Executed by operators to start the production server that manages sessions.",
       notes := "Focuses on wiring flags and lifecycle around the internal runtime." }),
    ("cmd/texel-stress",
     { component := "stress harness",
       usage_template := "Run in integration environments to pressure-test server throughput and protocol stability.",
       notes := "Spawns multiple client connections to simulate load." }) ]

/-- `DEFAULT_INFO` of `add_headers.py` (the spec's DefaultRule). -/
def DEFAULT_INFO : Info :=
  { component := "Texelation module",
    usage_template := "Referenced within the project wherever {feature} support is required.",
    notes := "Part of the Texelation AGPLv3 codebase." }

/-- The matching test of `choose_info`:
`relative.startswith(key + "/") or relative == key`. -/
def matchesKey (relative key : String) : Bool :=
  pyStartswith relative (key ++ "/") || relative == key

/-- The `for key in DIR_INFO` loop of `choose_info`, with `best` the current
`best_key` paired with its table entry (`DIR_INFO[best_key]`).
Updates `best` when the key matches and is strictly longer than the current best. -/
def bestKey (relative : String) : List (String × Info) → Option (String × Info) → Option (String × Info)
  | [], best => best
  | kv :: rest, best =>
      if matchesKey relative kv.1 then
        match best with
        | none => bestKey relative rest (some kv)
        | some b =>
            if kv.1.length > b.1.length then bestKey relative rest (some kv)
            else bestKey relative rest (some b)
      else
        bestKey relative rest best

/-- `choose_info` generalised over the rule table (the script always passes
`DIR_INFO`): longest-matching-prefix lookup with `DEFAULT_INFO` fallback. -/
def choose_info_over (rules : List (String × Info)) (relative : String) : Info :=
  match bestKey relative rules none with
  | some kv => kv.2
  | none => DEFAULT_INFO

/-- `choose_info(relative)` of `add_headers.py`. -/
def choose_info (relative : String) : Info :=
  choose_info_over DIR_INFO relative

/-- `humanise(name)` of `add_headers.py`:
`words = name.replace('_',' ').replace('-',' ').split()`;
returns `name` itself when `words` is empty, else `' '.join(words)`. -/
def humanise (name : String) : String :=
  let words := splitWords ⟨name.toList.map (fun c => if c = '_' || c = '-' then ' ' else c)⟩
  if words = [] then name else joinSpaces words

/-- `base.endswith("_bench_test")` as computed in `build_header`. -/
def isBenchBase (base : String) : Bool :=
  pyEndswith base "_bench_test"

/-- `base.endswith("_test") or base.endswith("_tests")` as computed in `build_header`. -/
def isTestBase (base : String) : Bool :=
  pyEndswith base "_test" || pyEndswith base "_tests"

/-- The argument `build_header` passes to `humanise`: `base[:-11]` for benchmark
names, `base[:-5]` for names ending in `"_test"`, otherwise `base` itself
(names ending only in `"_tests"` are not stripped). -/
def strippedBase (base : String) : String :=
  if isBenchBase base then dropRightStr base 11
  else if isTestBase base then
    (if pyEndswith base "_test" then dropRightStr base 5 else base)
  else base

/-- The `"main"` substitution of `build_header`:
`if isinstance(feature, str) and not feature: feature = "main"`. -/
def mainFallback (s : String) : String :=
  if s = "" then "main" else s

/-- The `feature` value of `build_header`: `humanise` of the stripped base,
with `"main"` substituted when the result is the empty string. -/
def featureOf (base : String) : String :=
  mainFallback (humanise (strippedBase base))

/-- Classification of a base name, mirroring the branch order of `build_header`
(`is_bench` tested first, then `is_test`, else production). -/
inductive Cls where
  | benchmark
  | test
  | production
deriving DecidableEq, Repr

/-- The classification `build_header` branches on. -/
def classifyOf (base : String) : Cls :=
  if isBenchBase base then Cls.benchmark
  else if isTestBase base then Cls.test
  else Cls.production

/-- `build_header(path, info)` of `add_headers.py`, with `rel` standing for
`path.relative_to(ROOT)` and `base` for `path.stem`. Every `DIR_INFO` entry and
`DEFAULT_INFO` carry a `notes` field, so `info.get("notes", ...)` is `info.notes`. -/
def build_header (rel base : String) (info : Info) : List String :=
  let component := info.component
  let feature := featureOf base
  let summary :=
    match classifyOf base with
    | Cls.benchmark => "Benchmarks " ++ feature ++ " performance within the " ++ component ++ "."
    | Cls.test => "Exercises " ++ feature ++ " behaviour to ensure the " ++ component ++ " remains reliable."
    | Cls.production => "Implements " ++ feature ++ " capabilities for the " ++ component ++ "."
  let usage :=
    match classifyOf base with
    | Cls.benchmark => "Run via `go test -bench` to observe hot-path behaviour under load."
    | Cls.test => "Executed during `go test` to guard against regressions."
    | Cls.production => formatTemplate info.usage_template feature component
  let notes := info.notes
  [ "// Copyright Â© 2025 Texelation contributors",
    "// SPDX-License-Identifier: AGPL-3.0-or-later",
    "//",
    "// File: " ++ rel,
    "// Summary: " ++ summary,
    "// Usage: " ++ usage,
    "// Notes: " ++ notes ]

/-- Number of leading lines satisfying `p` (the `while` loops of `insert_header`). -/
def countLeading (p : String → Bool) : List String → Nat
  | [] => 0
  | l :: rest => if p l then countLeading p rest + 1 else 0

/-- First loop of the `insert_idx` computation: skip leading `"//go:build"` lines. -/
def idxAfterGo (lines : List String) : Nat :=
  countLeading (fun l => pyStartswith l "//go:build") lines

/-- Second step of the `insert_idx` computation: skip at most one `"// +build"`
line at position `i1`. -/
def idxAfterPlus (lines : List String) (i1 : Nat) : Nat :=
  match lines.drop i1 with
  | l :: _ => if pyStartswith l "// +build" then i1 + 1 else i1
  | [] => i1

/-- The `insert_idx` computation of `insert_header`: skip leading `"//go:build"`
lines, then at most one `"// +build"` line, then blank lines. -/
def insertIdx (lines : List String) : Nat :=
  let i2 := idxAfterPlus lines (idxAfterGo lines)
  i2 + countLeading isBlankLine (lines.drop i2)

/-- The SPDX marker string tested by `insert_header`. -/
def spdxMarker : String := "SPDX-License-Identifier"

/-- The body of `insert_header` after the header is built, as the spec's
`insert(currentContent, header) -> (newContent, changed)` contract: an early
return (no write) is `(text, false)`. The guard is the code's
`"SPDX-License-Identifier" in text.splitlines()[:5]` — Python list membership,
i.e. one of the first five lines must *equal* the marker string. -/
def insert_result (header : List String) (text : String) : String × Bool :=
  if spdxMarker ∈ (splitlines text).take 5 then (text, false)
  else
    let lines := splitlines text
    let idx := insertIdx lines
    let new_lines := lines.take idx ++ header ++ [""] ++ lines.drop idx
    (joinLines new_lines ++ "\n", true)

/-- `insert_header(path)` of `add_headers.py` as a pure function of the path's
relative form `rel` (= `str(path.relative_to(ROOT))`), its stem `base`, and the
file's text: builds the header via `choose_info`/`build_header` and splices it. -/
def insert_header (rel base text : String) : String × Bool :=
  insert_result (build_header rel base (choose_info rel)) text

/-- One candidate file for the `main` loop: its path string (for the
`"/vendor/"` filter), its `rel`/`base` forms, and `read_text`'s outcome
(`none` models a file unreadable as UTF-8 text, which raises in Python). -/
structure PyFile where
  path : String
  rel : String
  base : String
  content : Option String
deriving DecidableEq, Repr

/-- The `for path in ROOT.rglob("*.go")` loop of `main`. `modified` is the list
`main` appends every processed path to; `writes` instruments the model with the
rewrites `insert_header` actually performs (path, new text). An unreadable file
raises, which aborts the loop: modelled as `Except.error` carrying the failing
file and the writes performed so far. -/
def mainLoop : List PyFile → List String → List (String × String) → Except (PyFile × List (String × String)) (List String × List (String × String))
  | [], modified, writes => Except.ok (modified, writes)
  | f :: rest, modified, writes =>
      if pyContains f.path "/vendor/" then mainLoop rest modified writes
      else
        match f.content with
        | none => Except.error (f, writes)
        | some text =>
            let r := insert_header f.rel f.base text
            let writes2 := if r.2 then writes ++ [(f.path, r.1)] else writes
            mainLoop rest (modified ++ [f.path]) writes2

/-- `main()` of `add_headers.py` over a batch of candidate files. -/
def runMain (files : List PyFile) : Except (PyFile × List (String × String)) (List String × List (String × String)) :=
  mainLoop files [] []

/-- The summary line `main` prints, `none` when an exception aborted the run
before the print was reached. -/
def summaryOf (files : List PyFile) : Option String :=
  match runMain files with
  | Except.ok (modified, _) => some ("Updated " ++ toString modified.length ++ " Go files")
  | Except.error _ => none

/-- Metadata for the claim C3 example rule `"a"`. -/
def ruleInfoA : Info :=
  { component := "component a", usage_template := "usage a", notes := "notes a" }

/-- Metadata for the claim C3 example rule `"a/b"`. -/
def ruleInfoB : Info :=
  { component := "component a/b", usage_template := "usage a/b", notes := "notes b" }

/-- Claim C5's reading of feature derivation: the base name with the
classification suffix stripped and separators replaced by spaces (a
`"_tests"` name would have its 6-character suffix stripped). Stated for
comparison with `featureOf`, which follows the code. -/
def claimFeatureC5 (base : String) : String :=
  if pyEndswith base "_bench_test" then humanise (dropRightStr base 11)
  else if pyEndswith base "_tests" then humanise (dropRightStr base 6)
  else if pyEndswith base "_test" then humanise (dropRightStr base 5)
  else humanise base

/-- The splice `insert_header` performs at the insertion index:
`lines[:idx] + header + [""] + lines[idx:]`. -/
def spliceAt (lines header : List String) (idx : Nat) : List String :=
  lines.take idx ++ header ++ [""] ++ lines.drop idx

/-- A candidate file whose `read_text` raises (e.g. binary content). -/
def badFile : PyFile :=
  { path := "/r/a.go", rel := "a.go", base := "a", content := none }

/-- A plain readable candidate file. -/
def goodFile : PyFile :=
  { path := "/r/b.go", rel := "b.go", base := "b", content := some "package b\n" }

/-- A candidate file whose first line is exactly the SPDX marker, so
`insert_header` skips it (the only shape the code's check recognises). -/
def annotatedFile : PyFile :=
  { path := "/r/c.go", rel := "c.go", base := "c",
    content := some "SPDX-License-Identifier\npackage c\n" }

/-- Equality of `Except` outcomes is decidable when both payloads have
decidable equality (used to evaluate `runMain` results concretely). -/
instance {ε α : Type} [DecidableEq ε] [DecidableEq α] : DecidableEq (Except ε α) := fun x y =>
  match x, y with
  | Except.error a, Except.error b =>
      match decEq a b with
      | isTrue h => isTrue (h ▸ rfl)
      | isFalse h => isFalse (fun hc => h (Except.error.inj hc))
  | Except.error _, Except.ok _ => isFalse (fun hc => Except.noConfusion hc)
  | Except.ok _, Except.error _ => isFalse (fun hc => Except.noConfusion hc)
  | Except.ok a, Except.ok b =>
      match decEq a b with
      | isTrue h => isTrue (h ▸ rfl)
      | isFalse h => isFalse (fun hc => h (Except.ok.inj hc))

example : humanise "foo_bar" = "foo bar" := by decide
example : humanise "_" = "_" := by decide
example : featureOf "_test" = "main" := by decide
example : featureOf "__test" = "_" := by decide
example : featureOf "foo_tests" = "foo tests" := by decide
example : featureOf "foo_bench_test" = "foo" := by decide
example : (choose_info "texel/foo.go").component = "core desktop engine" := by decide
example : (choose_info "texel/theme/c.go").component = "theme subsystem" := by decide
example : choose_info "zzz.go" = DEFAULT_INFO := by decide
example : splitlines "a\nb\n" = ["a", "b"] := by decide
example : splitlines "" = [] := by decide
example : splitlines "\n" = [""] := by decide
example : formatTemplate "encode {feature} messages" "codec" "protocol definitions" = "encode codec messages" := by decide
example : insertIdx ["//go:build linux", "", "package main"] = 2 := by decide
example : (insert_result ["// H"] "//go:build linux\n\npackage main\n").1 = "//go:build linux\n\n// H\n\npackage main\n" := by decide
example : (insert_header "zzz.go" "zzz" "package zzz\n").2 = true := by decide
example : (insert_header "zzz.go" "zzz" (insert_header "zzz.go" "zzz" "package zzz\n").1).2 = true := by decide
example : (insert_header "zzz.go" "zzz" "// SPDX-License-Identifier: MIT\npackage zzz\n").2 = true := by decide
example : (insert_header "zzz.go" "zzz" "SPDX-License-Identifier\npackage zzz\n").2 = false := by decide

/-! ## Resolver lemmas (claim C3) -/

/-- A non-matching key leaves one loop step of `choose_info` unchanged. -/
lemma bestKey_cons_no (rel : String) (kv : String × Info) (rest : List (String × Info))
    (b : Option (String × Info)) (hm : matchesKey rel kv.1 = false) :
    bestKey rel (kv :: rest) b = bestKey rel rest b := by
  cases b <;> simp [bestKey, hm]

/-- If no rule matches, the `choose_info` loop leaves `best_key` untouched. -/
lemma bestKey_no_match (rel : String) (rules : List (String × Info)) (b : Option (String × Info))
    (h : ∀ kv ∈ rules, matchesKey rel kv.1 = false) :
    bestKey rel rules b = b := by
  induction rules generalizing b with
  | nil => rfl
  | cons kv rest ih =>
      have hkv : matchesKey rel kv.1 = false := h kv (List.mem_cons_self _ _)
      have hrest : ∀ kv2 ∈ rest, matchesKey rel kv2.1 = false :=
        fun kv2 hm2 => h kv2 (List.mem_cons_of_mem _ hm2)
      simp only [bestKey, hkv, Bool.false_eq_true, if_false]
      exact ih b hrest

/-- Once `best_key` is set, the loop never unsets it. -/
lemma bestKey_some_ne_none (rel : String) (rules : List (String × Info)) :
    ∀ bb : String × Info, bestKey rel rules (some bb) ≠ none := by
  induction rules with
  | nil => intro bb h; simp [bestKey] at h
  | cons kv rest ih =>
      intro bb
      by_cases hm : matchesKey rel kv.1 = true
      · by_cases hlen : kv.1.length > bb.1.length
        · simpa [bestKey, hm, hlen] using ih kv
        · simpa [bestKey, hm, hlen] using ih bb
      · simpa [bestKey, hm] using ih bb

/-- If the loop finishes with no `best_key`, no rule matched. -/
lemma bestKey_none_no_match (rel : String) (rules : List (String × Info))
    (h : bestKey rel rules none = none) :
    ∀ kv ∈ rules, matchesKey rel kv.1 = false := by
  induction rules with
  | nil => intro kv hkv; cases hkv
  | cons kv rest ih =>
      intro kv2 hkv2
      unfold bestKey at h
      by_cases hm : matchesKey rel kv.1 = true
      · rw [if_pos hm] at h
        exact absurd h (bestKey_some_ne_none rel rest kv)
      · rw [if_neg hm] at h
        rcases List.mem_cons.mp hkv2 with heq | hmem
        · subst heq; exact Bool.eq_false_iff.mpr hm
        · exact ih h kv2 hmem

/-- Loop invariant of `choose_info`: the final `best_key` is a matching rule (or
the initial accumulator), and its prefix length dominates every matching rule
seen and the initial accumulator. -/
lemma bestKey_spec (rel : String) (rules : List (String × Info)) :
    ∀ (b : Option (String × Info)) (r : String × Info),
      bestKey rel rules b = some r →
      ((r ∈ rules ∧ matchesKey rel r.1 = true) ∨ b = some r) ∧
      (∀ kv ∈ rules, matchesKey rel kv.1 = true → kv.1.length ≤ r.1.length) ∧
      (∀ rb, b = some rb → rb.1.length ≤ r.1.length) := by
  induction rules with
  | nil =>
      intro b r h
      simp only [bestKey] at h
      refine ⟨Or.inr h, fun kv hkv => absurd hkv (List.not_mem_nil _), fun rb hrb => ?_⟩
      rw [h] at hrb
      cases hrb
      exact le_refl _
  | cons kv rest ih =>
      intro b r h
      by_cases hm : matchesKey rel kv.1 = true
      · cases b with
        | none =>
            have h' : bestKey rel rest (some kv) = some r := by
              simpa [bestKey, hm] using h
            obtain ⟨h1, h2, h3⟩ := ih (some kv) r h'
            refine ⟨Or.inl ?_, ?_, fun rb hrb => by cases hrb⟩
            · rcases h1 with ⟨hmem, hmatch⟩ | heq
              · exact ⟨List.mem_cons_of_mem _ hmem, hmatch⟩
              · cases heq; exact ⟨List.mem_cons_self _ _, hm⟩
            · intro kv2 hkv2 hm2
              rcases List.mem_cons.mp hkv2 with heq | hmem
              · subst heq; exact h3 kv2 rfl
              · exact h2 kv2 hmem hm2
        | some bb =>
            by_cases hlen : kv.1.length > bb.1.length
            · have h' : bestKey rel rest (some kv) = some r := by
                simpa [bestKey, hm, hlen] using h
              obtain ⟨h1, h2, h3⟩ := ih (some kv) r h'
              have hkvr : kv.1.length ≤ r.1.length := h3 kv rfl
              refine ⟨Or.inl ?_, ?_, fun rb hrb => ?_⟩
              · rcases h1 with ⟨hmem, hmatch⟩ | heq
                · exact ⟨List.mem_cons_of_mem _ hmem, hmatch⟩
                · cases heq; exact ⟨List.mem_cons_self _ _, hm⟩
              · intro kv2 hkv2 hm2
                rcases List.mem_cons.mp hkv2 with heq | hmem
                · subst heq; exact hkvr
                · exact h2 kv2 hmem hm2
              · cases hrb
                exact le_trans (le_of_lt hlen) hkvr
            · have h' : bestKey rel rest (some bb) = some r := by
                simpa [bestKey, hm, hlen] using h
              obtain ⟨h1, h2, h3⟩ := ih (some bb) r h'
              have hbbr : bb.1.length ≤ r.1.length := h3 bb rfl
              refine ⟨?_, ?_, fun rb hrb => ?_⟩
              · rcases h1 with ⟨hmem, hmatch⟩ | heq
                · exact Or.inl ⟨List.mem_cons_of_mem _ hmem, hmatch⟩
                · exact Or.inr heq
              · intro kv2 hkv2 hm2
                rcases List.mem_cons.mp hkv2 with heq | hmem
                · subst heq
                  exact le_trans (Nat.le_of_not_lt hlen) hbbr
                · exact h2 kv2 hmem hm2
              · cases hrb
                exact hbbr
      · have hmf : matchesKey rel kv.1 = false := by simpa using hm
        have h' : bestKey rel rest b = some r := by
          rw [bestKey_cons_no rel kv rest b hmf] at h
          exact h
        obtain ⟨h1, h2, h3⟩ := ih b r h'
        refine ⟨?_, ?_, h3⟩
        · rcases h1 with ⟨hmem, hmatch⟩ | heq
          · exact Or.inl ⟨List.mem_cons_of_mem _ hmem, hmatch⟩
          · exact Or.inr heq
        · intro kv2 hkv2 hm2
          rcases List.mem_cons.mp hkv2 with heq | hmem
          · subst heq; exact absurd hm2 hm
          · exact h2 kv2 hmem hm2

/-- C3: longest-prefix resolution with fallback. For every rule table and
relative path: if no rule matches, `choose_info` returns `DEFAULT_INFO`; if some
rule matches, it returns the metadata of a matching rule whose prefix length is
maximal among all matching rules. In particular, with rules for `"a"` and
`"a/b"`, path `"a/b/c"` resolves to the `"a/b"` rule and `"a/x"` to the `"a"`
rule. -/
theorem c3_longest_prefix_resolution :
    (∀ (rules : List (String × Info)) (rel : String),
        (∀ kv ∈ rules, matchesKey rel kv.1 = false) →
        choose_info_over rules rel = DEFAULT_INFO)
    ∧ (∀ (rules : List (String × Info)) (rel : String) (kv0 : String × Info),
        kv0 ∈ rules → matchesKey rel kv0.1 = true →
        ∃ kv ∈ rules, matchesKey rel kv.1 = true ∧
          choose_info_over rules rel = kv.2 ∧
          ∀ kv2 ∈ rules, matchesKey rel kv2.1 = true → kv2.1.length ≤ kv.1.length)
    ∧ choose_info_over [("a", ruleInfoA), ("a/b", ruleInfoB)] "a/b/c" = ruleInfoB
    ∧ choose_info_over [("a", ruleInfoA), ("a/b", ruleInfoB)] "a/x" = ruleInfoA := by
  refine ⟨?_, ?_, by decide, by decide⟩
  · intro rules rel h
    unfold choose_info_over
    rw [bestKey_no_match rel rules none h]
  · intro rules rel kv0 hmem hm
    unfold choose_info_over
    cases hbk : bestKey rel rules none with
    | none => exact absurd (bestKey_none_no_match rel rules hbk kv0 hmem) (by simp [hm])
    | some r =>
        obtain ⟨h1, h2, _⟩ := bestKey_spec rel rules none r hbk
        rcases h1 with ⟨hrmem, hrmatch⟩ | heq
        · exact ⟨r, hrmem, hrmatch, rfl, h2⟩
        · cases heq

/-- Witness for C3: a non-matching path falls back to `DEFAULT_INFO`, and a
matching path resolves to a longest matching rule. -/
theorem c3_witness :
    choose_info_over [("a", ruleInfoA)] "b" = DEFAULT_INFO
    ∧ ∃ kv ∈ [("a", ruleInfoA), ("a/b", ruleInfoB)], matchesKey "a/b/c" kv.1 = true ∧
        choose_info_over [("a", ruleInfoA), ("a/b", ruleInfoB)] "a/b/c" = kv.2 ∧
        ∀ kv2 ∈ [("a", ruleInfoA), ("a/b", ruleInfoB)], matchesKey "a/b/c" kv2.1 = true →
          kv2.1.length ≤ kv.1.length :=
  ⟨c3_longest_prefix_resolution.1 [("a", ruleInfoA)] "b" (by decide),
   c3_longest_prefix_resolution.2.1 [("a", ruleInfoA), ("a/b", ruleInfoB)] "a/b/c"
     ("a/b", ruleInfoB) (by decide) (by decide)⟩

/-! ## Suffix and classification lemmas (claims C4, C5, C10) -/

/-- Two candidate runs that disagree at some position cannot both be prefixes
of the same character list. -/
lemma prefixOf_disagree (p q cs : List Char) (i : Nat)
    (hip : i < p.length) (hiq : i < q.length) (hne : p[i]? ≠ q[i]?)
    (hp : p.isPrefixOf cs = true) : q.isPrefixOf cs = false := by
  rw [List.isPrefixOf_iff_prefix] at hp
  cases hq : q.isPrefixOf cs
  · rfl
  · exfalso
    rw [List.isPrefixOf_iff_prefix] at hq
    obtain ⟨t1, ht1⟩ := hp
    obtain ⟨t2, ht2⟩ := hq
    apply hne
    calc p[i]? = (p ++ t1)[i]? := (List.getElem?_append_left hip).symm
      _ = cs[i]? := by rw [ht1]
      _ = (q ++ t2)[i]? := by rw [ht2]
      _ = q[i]? := List.getElem?_append_left hiq

/-- A prefix of a prefix is a prefix. -/
lemma prefixOf_of_le (p q cs : List Char) (hpq : p <+: q)
    (h : q.isPrefixOf cs = true) : p.isPrefixOf cs = true := by
  rw [List.isPrefixOf_iff_prefix] at *
  exact hpq.trans h

/-- A base name ending in `"_tests"` does not end in `"_test"`
(last characters `'s'` vs `'t'`). -/
lemma endswith_tests_not_test (s : String) (h : pyEndswith s "_tests" = true) :
    pyEndswith s "_test" = false := by
  unfold pyEndswith at *
  exact prefixOf_disagree _ _ _ 0 (by decide) (by decide) (by decide) h

/-- A base name ending in `"_bench_test"` also ends in `"_test"`. -/
lemma endswith_bench_imp_test (s : String) (h : pyEndswith s "_bench_test" = true) :
    pyEndswith s "_test" = true := by
  unfold pyEndswith at *
  exact prefixOf_of_le _ _ _ (by decide) h

/-- A base name not ending in `"_test"` does not end in `"_bench_test"`. -/
lemma not_test_not_bench (s : String) (h : pyEndswith s "_test" = false) :
    pyEndswith s "_bench_test" = false := by
  cases hb : pyEndswith s "_bench_test"
  · rfl
  · rw [endswith_bench_imp_test s hb] at h
    cases h

/-- C4 counterexample: base name `"__test"` strips to `"_"`, which has no
alphanumeric content, yet the synthesized feature label is `"_"`, not `"main"`
(`humanise` returns its argument unchanged when no words remain). -/
theorem c4_counterexample :
    strippedBase "__test" = "_"
    ∧ (∀ c ∈ ("_" : String).toList, c.isAlphanum = false)
    ∧ featureOf "__test" = "_"
    ∧ featureOf "__test" ≠ "main" := by
  decide

/-- C4 (amended): the feature label is the literal `"main"` whenever the
suffix-stripped base name is the empty string (equivalently, whenever
`humanise` of the stripped base is empty, which happens only for the empty
string). -/
theorem c4_empty_stripped_gives_main (base : String)
    (h : strippedBase base = "") : featureOf base = "main" := by
  unfold featureOf
  rw [h]
  rfl

/-- Witness for C4 (amended): base `"_test"` strips to the empty string and
yields feature label `"main"`. -/
theorem c4_witness : strippedBase "_test" = "" ∧ featureOf "_test" = "main" :=
  ⟨by decide, c4_empty_stripped_gives_main "_test" (by decide)⟩

/-- C5 counterexample: base name `"foo_tests"` is classified test, but its
classification suffix is not stripped — the feature label is `"foo tests"`,
not the claim's `"foo"`. -/
theorem c5_counterexample :
    classifyOf "foo_tests" = Cls.test
    ∧ claimFeatureC5 "foo_tests" = "foo"
    ∧ featureOf "foo_tests" = "foo tests"
    ∧ featureOf "foo_tests" ≠ claimFeatureC5 "foo_tests" := by
  decide

/-- C5 (amended): suffix classification as claimed (benchmark for
`"_bench_test"`, test for `"_test"` or `"_tests"`, production otherwise), and
feature derivation strips the classification suffix for `"_bench_test"` and
`"_test"` names — but a name ending only in `"_tests"` keeps its full base
name. The claim's two examples hold. -/
theorem c5_classification_and_feature :
    (∀ base, pyEndswith base "_bench_test" = true →
        classifyOf base = Cls.benchmark
        ∧ featureOf base = mainFallback (humanise (dropRightStr base 11)))
    ∧ (∀ base, pyEndswith base "_bench_test" = false → pyEndswith base "_test" = true →
        classifyOf base = Cls.test
        ∧ featureOf base = mainFallback (humanise (dropRightStr base 5)))
    ∧ (∀ base, pyEndswith base "_test" = false → pyEndswith base "_tests" = true →
        classifyOf base = Cls.test
        ∧ featureOf base = mainFallback (humanise base))
    ∧ (∀ base, pyEndswith base "_test" = false → pyEndswith base "_tests" = false →
        classifyOf base = Cls.production
        ∧ featureOf base = mainFallback (humanise base))
    ∧ (classifyOf "foo_bar_test" = Cls.test ∧ featureOf "foo_bar_test" = "foo bar")
    ∧ (classifyOf "foo_bench_test" = Cls.benchmark ∧ featureOf "foo_bench_test" = "foo") := by
  refine ⟨?_, ?_, ?_, ?_, by decide, by decide⟩
  · intro base h
    constructor
    · simp [classifyOf, isBenchBase, h]
    · simp [featureOf, strippedBase, isBenchBase, h]
  · intro base h1 h2
    constructor
    · simp [classifyOf, isBenchBase, isTestBase, h1, h2]
    · simp [featureOf, strippedBase, isBenchBase, isTestBase, h1, h2]
  · intro base h1 h2
    have hb : pyEndswith base "_bench_test" = false := not_test_not_bench base h1
    constructor
    · simp [classifyOf, isBenchBase, isTestBase, h1, h2, hb]
    · simp [featureOf, strippedBase, isBenchBase, isTestBase, h1, h2, hb]
  · intro base h1 h2
    have hb : pyEndswith base "_bench_test" = false := not_test_not_bench base h1
    constructor
    · simp [classifyOf, isBenchBase, isTestBase, h1, h2, hb]
    · simp [featureOf, strippedBase, isBenchBase, isTestBase, h1, h2, hb]

/-- Witness for C5 (amended): base `"x_test"` is classified test with feature
label derived from the 5-character-stripped base. -/
theorem c5_witness :
    pyEndswith "x_test" "_bench_test" = false
    ∧ pyEndswith "x_test" "_test" = true
    ∧ classifyOf "x_test" = Cls.test
    ∧ featureOf "x_test" = mainFallback (humanise (dropRightStr "x_test" 5)) := by
  refine ⟨by decide, by decide, ?_, ?_⟩
  · exact (c5_classification_and_feature.2.1 "x_test" (by decide) (by decide)).1
  · exact (c5_classification_and_feature.2.1 "x_test" (by decide) (by decide)).2

/-- C10: a base name ending in `"_tests"` never ends in `"_test"`, is
classified test, and its base is not stripped before feature derivation; in
particular `"foo_tests"` yields feature label `"foo tests"` and the test
summary line mentions the full humanised base. -/
theorem c10_tests_suffix_not_stripped :
    (∀ base, pyEndswith base "_tests" = true →
        pyEndswith base "_test" = false
        ∧ classifyOf base = Cls.test
        ∧ strippedBase base = base
        ∧ featureOf base = mainFallback (humanise base))
    ∧ featureOf "foo_tests" = "foo tests"
    ∧ (build_header "x/foo_tests.go" "foo_tests" DEFAULT_INFO)[4]?
        = some "// Summary: Exercises foo tests behaviour to ensure the Texelation module remains reliable." := by
  refine ⟨?_, by decide, by decide⟩
  intro base h
  have ht : pyEndswith base "_test" = false := endswith_tests_not_test base h
  have hb : pyEndswith base "_bench_test" = false := not_test_not_bench base ht
  refine ⟨ht, ?_, ?_, ?_⟩
  · simp [classifyOf, isBenchBase, isTestBase, ht, h, hb]
  · simp [strippedBase, isBenchBase, isTestBase, ht, h, hb]
  · simp [featureOf, strippedBase, isBenchBase, isTestBase, ht, h, hb]

/-- Witness for C10: the general part applied to base `"foo_tests"`. -/
theorem c10_witness :
    pyEndswith "foo_tests" "_tests" = true
    ∧ (pyEndswith "foo_tests" "_test" = false
        ∧ classifyOf "foo_tests" = Cls.test
        ∧ strippedBase "foo_tests" = "foo_tests"
        ∧ featureOf "foo_tests" = mainFallback (humanise "foo_tests")) :=
  ⟨by decide, c10_tests_suffix_not_stripped.1 "foo_tests" (by decide)⟩

/-! ## Insertion lemmas (claims C6, C7) -/

/-- `countLeading` counts at most the whole list. -/
lemma countLeading_le (p : String → Bool) (l : List String) :
    countLeading p l ≤ l.length := by
  induction l with
  | nil => exact le_refl _
  | cons x rest ih =>
      by_cases hx : p x = true
      · simpa [countLeading, hx] using ih
      · simp [countLeading, hx]

/-- `countLeading` over a block satisfying `p` followed by a list whose head
(if any) fails `p` counts exactly the block. -/
lemma countLeading_append (p : String → Bool) (xs ys : List String)
    (hxs : ∀ l ∈ xs, p l = true) (hys : ∀ y ∈ ys.take 1, p y = false) :
    countLeading p (xs ++ ys) = xs.length := by
  induction xs with
  | nil =>
      cases ys with
      | nil => rfl
      | cons y t =>
          have hy : p y = false := hys y (by simp)
          simp [countLeading, hy]
  | cons x rest ih =>
      have hx : p x = true := hxs x (List.mem_cons_self _ _)
      have hrest : ∀ l ∈ rest, p l = true := fun l hl => hxs l (List.mem_cons_of_mem _ hl)
      simp [countLeading, hx, ih hrest]

/-- A blank line cannot start with a character that is not whitespace. -/
lemma blank_not_startswith (l p : String) (c : Char)
    (hc : p.toList[0]? = some c) (hw : c.isWhitespace = false)
    (h : isBlankLine l = true) : pyStartswith l p = false := by
  cases hq : pyStartswith l p
  · rfl
  · exfalso
    unfold pyStartswith at hq
    rw [List.isPrefixOf_iff_prefix] at hq
    obtain ⟨t, ht⟩ := hq
    obtain ⟨hlt, -⟩ := List.getElem?_eq_some.mp hc
    have h0 : l.toList[0]? = some c := by
      rw [← ht, List.getElem?_append_left hlt]
      exact hc
    obtain ⟨hlt2, heq⟩ := List.getElem?_eq_some.mp h0
    unfold isBlankLine at h
    rw [List.all_eq_true] at h
    have hmem : c ∈ l.toList := heq ▸ List.getElem_mem hlt2
    rw [h c hmem] at hw
    cases hw

/-- A blank line is not a `"//go:build"` directive. -/
lemma blank_not_gobuild (l : String) (h : isBlankLine l = true) :
    pyStartswith l "//go:build" = false :=
  blank_not_startswith l "//go:build" '/' (by decide) (by decide) h

/-- A blank line is not a `"// +build"` directive. -/
lemma blank_not_plusbuild (l : String) (h : isBlankLine l = true) :
    pyStartswith l "// +build" = false :=
  blank_not_startswith l "// +build" '/' (by decide) (by decide) h

/-- A `"// +build"` line is not a `"//go:build"` line (they differ at the
third character). -/
lemma plusbuild_not_gobuild (l : String) (h : pyStartswith l "// +build" = true) :
    pyStartswith l "//go:build" = false := by
  unfold pyStartswith at *
  exact prefixOf_disagree _ _ _ 2 (by decide) (by decide) (by decide) h

/-- The computed insertion index of `insert_header` lands exactly after a
preamble of `"//go:build"` lines, at most one `"// +build"` line, and blank
lines, whenever the first line of the remainder is actual content. -/
lemma insertIdx_preamble (D A B R : List String)
    (hD : ∀ l ∈ D, pyStartswith l "//go:build" = true)
    (hA : A = [] ∨ ∃ a, A = [a] ∧ pyStartswith a "// +build" = true)
    (hB : ∀ l ∈ B, isBlankLine l = true)
    (hR : ∀ r ∈ R.take 1,
        isBlankLine r = false ∧ pyStartswith r "//go:build" = false
          ∧ pyStartswith r "// +build" = false) :
    insertIdx (D ++ A ++ B ++ R) = D.length + A.length + B.length := by
  have hgo_head : ∀ y ∈ (A ++ B ++ R).take 1, pyStartswith y "//go:build" = false := by
    rcases hA with hA0 | ⟨a, hA1, ha⟩
    · subst hA0
      cases B with
      | nil => simpa using fun r hr => (hR r hr).2.1
      | cons b B2 =>
          intro y hy
          have hyb : y = b := by simpa using hy
          rw [hyb]
          exact blank_not_gobuild b (hB b (List.mem_cons_self _ _))
    · subst hA1
      intro y hy
      have hya : y = a := by simpa using hy
      rw [hya]
      exact plusbuild_not_gobuild a ha
  have hdrop1 : (D ++ A ++ B ++ R).drop D.length = A ++ B ++ R := by
    rw [List.append_assoc, List.append_assoc, List.drop_left, ← List.append_assoc]
  have hdrop2 : (D ++ A ++ B ++ R).drop (D.length + A.length) = B ++ R := by
    have h1 : D ++ A ++ B ++ R = (D ++ A) ++ (B ++ R) := by
      rw [List.append_assoc]
    rw [h1, ← List.length_append D A, List.drop_left]
  have hi1 : idxAfterGo (D ++ A ++ B ++ R) = D.length := by
    unfold idxAfterGo
    rw [List.append_assoc, List.append_assoc]
    exact countLeading_append _ D (A ++ (B ++ R)) hD
      (by simpa [List.append_assoc] using hgo_head)
  have hi2 : idxAfterPlus (D ++ A ++ B ++ R) D.length = D.length + A.length := by
    unfold idxAfterPlus
    rw [hdrop1]
    rcases hA with hA0 | ⟨a, hA1, ha⟩
    · subst hA0
      cases B with
      | nil =>
          cases R with
          | nil => simp
          | cons r R2 =>
              have hr : pyStartswith r "// +build" = false := (hR r (by simp)).2.2
              simp [hr]
      | cons b B2 =>
          have hbb : pyStartswith b "// +build" = false :=
            blank_not_plusbuild b (hB b (List.mem_cons_self _ _))
          simp [hbb]
    · subst hA1
      simp [ha]
  have hi3 : countLeading isBlankLine ((D ++ A ++ B ++ R).drop (D.length + A.length))
      = B.length := by
    rw [hdrop2]
    exact countLeading_append _ B R hB (fun r hr => (hR r hr).1)
  show idxAfterPlus (D ++ A ++ B ++ R) (idxAfterGo (D ++ A ++ B ++ R))
      + countLeading isBlankLine
          ((D ++ A ++ B ++ R).drop
            (idxAfterPlus (D ++ A ++ B ++ R) (idxAfterGo (D ++ A ++ B ++ R))))
      = D.length + A.length + B.length
  rw [hi1, hi2, hi3]

/-- C6: for a file whose lines begin with `"//go:build"` directives, at most one
`"// +build"` line and then blank lines, and whose first content line is none of
those, `insert` places the header block (followed by one blank line) exactly
after that preamble and before the first content line. -/
theorem c6_header_after_preamble (header : List String) (text : String)
    (D A B R : List String)
    (hsplit : splitlines text = D ++ A ++ B ++ R)
    (hD : ∀ l ∈ D, pyStartswith l "//go:build" = true)
    (hA : A = [] ∨ ∃ a, A = [a] ∧ pyStartswith a "// +build" = true)
    (hB : ∀ l ∈ B, isBlankLine l = true)
    (hR : ∀ r ∈ R.take 1,
        isBlankLine r = false ∧ pyStartswith r "//go:build" = false
          ∧ pyStartswith r "// +build" = false)
    (hm : spdxMarker ∉ (D ++ A ++ B ++ R).take 5) :
    insertIdx (splitlines text) = D.length + A.length + B.length
    ∧ insert_result header text
        = (joinLines ((D ++ A ++ B) ++ header ++ [""] ++ R) ++ "\n", true) := by
  have hidx : insertIdx (D ++ A ++ B ++ R) = D.length + A.length + B.length :=
    insertIdx_preamble D A B R hD hA hB hR
  have hlen : (D ++ A ++ B).length = D.length + A.length + B.length := by
    simp
    omega
  have htake : ((D ++ A ++ B) ++ R).take (D.length + A.length + B.length) = D ++ A ++ B :=
    List.take_left' hlen
  have hdrop : ((D ++ A ++ B) ++ R).drop (D.length + A.length + B.length) = R :=
    List.drop_left' hlen
  constructor
  · rw [hsplit]
    exact hidx
  · unfold insert_result
    rw [hsplit, if_neg hm]
    dsimp only
    rw [hidx, htake, hdrop]

/-- Witness for C6: a `"//go:build"` line, a blank line, then code; the header
goes after the blank-line preamble. -/
theorem c6_witness :
    insertIdx (splitlines "//go:build linux\n\npackage main\n") = 2
    ∧ insert_result ["// H"] "//go:build linux\n\npackage main\n"
        = ("//go:build linux\n\n// H\n\npackage main\n", true) := by
  have h := c6_header_after_preamble ["// H"] "//go:build linux\n\npackage main\n"
      ["//go:build linux"] [] [""] ["package main"]
      (by decide) (by decide) (Or.inl rfl) (by decide) (by decide) (by decide)
  constructor
  · rw [h.1]
    decide
  · rw [h.2]
    decide

/-- The computed insertion index never exceeds the number of lines. -/
lemma insertIdx_le (lines : List String) : insertIdx lines ≤ lines.length := by
  have h1 : idxAfterGo lines ≤ lines.length := countLeading_le _ _
  have h2 : idxAfterPlus lines (idxAfterGo lines) ≤ lines.length := by
    unfold idxAfterPlus
    cases hd : lines.drop (idxAfterGo lines) with
    | nil => exact h1
    | cons l t =>
        by_cases hl : pyStartswith l "// +build" = true
        · simp only [hl, if_true]
          by_contra hcon
          push_neg at hcon
          have hge : lines.length ≤ idxAfterGo lines := by omega
          rw [List.drop_eq_nil_of_le hge] at hd
          cases hd
        · simp only [hl, if_false]
          exact h1
  have h3 : countLeading isBlankLine (lines.drop (idxAfterPlus lines (idxAfterGo lines)))
      ≤ lines.length - idxAfterPlus lines (idxAfterGo lines) := by
    calc countLeading isBlankLine (lines.drop (idxAfterPlus lines (idxAfterGo lines)))
        ≤ (lines.drop (idxAfterPlus lines (idxAfterGo lines))).length :=
          countLeading_le _ _
      _ = lines.length - idxAfterPlus lines (idxAfterGo lines) := List.length_drop _ _
  show idxAfterPlus lines (idxAfterGo lines)
      + countLeading isBlankLine (lines.drop (idxAfterPlus lines (idxAfterGo lines)))
      ≤ lines.length
  omega

/-- Lines above the insertion point are preserved by the splice. -/
lemma spliceAt_take (lines header : List String) (idx : Nat) (hle : idx ≤ lines.length) :
    (spliceAt lines header idx).take idx = lines.take idx := by
  have hl : (lines.take idx).length = idx := by
    simp [List.length_take]
    omega
  unfold spliceAt
  rw [List.append_assoc, List.append_assoc]
  exact List.take_left' hl

/-- Lines below the insertion point are preserved by the splice, shifted by the
header block plus the blank separator. -/
lemma spliceAt_drop (lines header : List String) (idx : Nat) (hle : idx ≤ lines.length) :
    (spliceAt lines header idx).drop (idx + (header.length + 1)) = lines.drop idx := by
  have hl : ((lines.take idx) ++ header ++ [""]).length = idx + (header.length + 1) := by
    simp [List.length_take]
    omega
  show (((lines.take idx) ++ header ++ [""]) ++ lines.drop idx).drop (idx + (header.length + 1))
      = lines.drop idx
  exact List.drop_left' hl

/-- The spliced segment between the preserved parts is the header block plus
one blank line. -/
lemma spliceAt_mid (lines header : List String) (idx : Nat) (hle : idx ≤ lines.length) :
    ((spliceAt lines header idx).drop idx).take (header.length + 1) = header ++ [""] := by
  have hl : (lines.take idx).length = idx := by
    simp [List.length_take]
    omega
  have hmid : (spliceAt lines header idx).drop idx = (header ++ [""]) ++ lines.drop idx := by
    unfold spliceAt
    rw [List.append_assoc, List.append_assoc, List.drop_left' hl, ← List.append_assoc]
  rw [hmid]
  exact List.take_left' (by simp)

/-- The splice adds exactly the header block plus one line. -/
lemma spliceAt_length (lines header : List String) (idx : Nat) (hle : idx ≤ lines.length) :
    (spliceAt lines header idx).length = lines.length + (header.length + 1) := by
  simp [spliceAt, List.length_take, List.length_drop]
  omega

/-- C7: whenever `insert` rewrites a file, the new content is exactly the
original lines with the header block and one blank separator line spliced in
at the computed insertion index: lines above the index and lines below it are
preserved unchanged, and the length grows by exactly the header plus one. -/
theorem c7_insert_frame (header : List String) (text : String)
    (h : (insert_result header text).2 = true) :
    (insert_result header text).1
        = joinLines (spliceAt (splitlines text) header (insertIdx (splitlines text))) ++ "\n"
    ∧ (spliceAt (splitlines text) header (insertIdx (splitlines text))).take
          (insertIdx (splitlines text))
        = (splitlines text).take (insertIdx (splitlines text))
    ∧ (spliceAt (splitlines text) header (insertIdx (splitlines text))).drop
          (insertIdx (splitlines text) + (header.length + 1))
        = (splitlines text).drop (insertIdx (splitlines text))
    ∧ ((spliceAt (splitlines text) header (insertIdx (splitlines text))).drop
          (insertIdx (splitlines text))).take (header.length + 1)
        = header ++ [""]
    ∧ (spliceAt (splitlines text) header (insertIdx (splitlines text))).length
        = (splitlines text).length + (header.length + 1) := by
  have hle : insertIdx (splitlines text) ≤ (splitlines text).length :=
    insertIdx_le (splitlines text)
  refine ⟨?_, spliceAt_take _ _ _ hle, spliceAt_drop _ _ _ hle,
    spliceAt_mid _ _ _ hle, spliceAt_length _ _ _ hle⟩
  by_cases hg : spdxMarker ∈ (splitlines text).take 5
  · exfalso
    unfold insert_result at h
    rw [if_pos hg] at h
    cases h
  · unfold insert_result
    rw [if_neg hg]
    rfl

/-- Witness for C7: a plain one-line file is rewritten, and the frame equalities
hold for it. -/
theorem c7_witness :
    (insert_result ["// H"] "package main\n").2 = true
    ∧ (insert_result ["// H"] "package main\n").1
        = joinLines (spliceAt (splitlines "package main\n") ["// H"]
            (insertIdx (splitlines "package main\n"))) ++ "\n" :=
  ⟨by decide, (c7_insert_frame ["// H"] "package main\n" (by decide)).1⟩

set_option maxRecDepth 8192 in
/-- C1 (the code refutes the claim): `insert_header` applied to its own output
inserts a second header. The first run leaves the SPDX marker as a substring
of the second line, but the code's check `"SPDX-License-Identifier" in
text.splitlines()[:5]` is Python list membership — whole-line equality — so it
never fires on the generated header, and the second call reports a change and
different content. -/
theorem c1_insert_not_idempotent :
    (insert_header "zzz.go" "zzz" "package zzz\n").2 = true
    ∧ (splitlines (insert_header "zzz.go" "zzz" "package zzz\n").1)[1]?
        = some "// SPDX-License-Identifier: AGPL-3.0-or-later"
    ∧ pyContains (insert_header "zzz.go" "zzz" "package zzz\n").1 "SPDX-License-Identifier"
        = true
    ∧ (insert_header "zzz.go" "zzz" (insert_header "zzz.go" "zzz" "package zzz\n").1).2 = true
    ∧ (insert_header "zzz.go" "zzz" (insert_header "zzz.go" "zzz" "package zzz\n").1).1
        ≠ (insert_header "zzz.go" "zzz" "package zzz\n").1 := by
  decide

set_option maxRecDepth 8192 in
/-- C2 (the code refutes the claim): a file whose first line contains the SPDX
marker as a proper substring is still rewritten — the check compares whole
lines for equality with the marker instead of scanning for a substring. -/
theorem c2_marker_substring_not_detected :
    pyContains "// SPDX-License-Identifier: MIT" spdxMarker = true
    ∧ (splitlines "// SPDX-License-Identifier: MIT\npackage zzz\n").take 5
        = ["// SPDX-License-Identifier: MIT", "package zzz"]
    ∧ (insert_header "zzz.go" "zzz" "// SPDX-License-Identifier: MIT\npackage zzz\n").2 = true
    ∧ (insert_header "zzz.go" "zzz" "// SPDX-License-Identifier: MIT\npackage zzz\n").1
        ≠ "// SPDX-License-Identifier: MIT\npackage zzz\n" := by
  decide

set_option maxRecDepth 8192 in
/-- C8 (the code refutes the claim): `main` has no per-file error recovery —
an unreadable first file aborts the batch before the second (perfectly
processable on its own) file is reached, and no summary is printed. -/
theorem c8_read_failure_aborts_batch :
    runMain [badFile, goodFile] = Except.error (badFile, [])
    ∧ summaryOf [badFile, goodFile] = none
    ∧ runMain [goodFile]
        = Except.ok (["/r/b.go"], [("/r/b.go", (insert_header "b.go" "b" "package b\n").1)]) := by
  decide

set_option maxRecDepth 8192 in
/-- C9 (the code refutes the claim): `main` appends every processed path to
`modified`, even when `insert_header` skipped the file, so the summary reports
one updated file for a batch whose only file was already annotated and was not
written at all. -/
theorem c9_summary_counts_unmodified :
    runMain [annotatedFile] = Except.ok (["/r/c.go"], [])
    ∧ summaryOf [annotatedFile] = some "Updated 1 Go files"
    ∧ (insert_header "c.go" "c" "SPDX-License-Identifier\npackage c\n")
        = ("SPDX-License-Identifier\npackage c\n", false) := by
  decide
